import Mathlib

/-
Verification of the kinematic character controller
(src/unnamed/part_000, class CharacterController, most advanced variant)
against its natural-language specification.

The embedding models Babylon Vector3 values as triples of real numbers and
translates the controller methods into pure Lean functions. The external
Havok shape cast is modelled as an oracle parameter
(fromPosition, direction, distance) to SweepResult, exactly the data the
sweep wrapper extracts from the physics plugin.
-/

namespace Paint

/-- Real 3-vector, modelling Babylon Vector3. -/
@[ext]
structure Vec3 where
  x : ℝ
  y : ℝ
  z : ℝ

namespace Vec3

def zero : Vec3 := ⟨0, 0, 0⟩

def add (a b : Vec3) : Vec3 := ⟨a.x + b.x, a.y + b.y, a.z + b.z⟩

def sub (a b : Vec3) : Vec3 := ⟨a.x - b.x, a.y - b.y, a.z - b.z⟩

def scale (v : Vec3) (c : ℝ) : Vec3 := ⟨v.x * c, v.y * c, v.z * c⟩

def dot (a b : Vec3) : ℝ := a.x * b.x + a.y * b.y + a.z * b.z

def cross (a b : Vec3) : Vec3 :=
  ⟨a.y * b.z - a.z * b.y, a.z * b.x - a.x * b.z, a.x * b.y - a.y * b.x⟩

def lengthSquared (v : Vec3) : ℝ := v.x * v.x + v.y * v.y + v.z * v.z

noncomputable def length (v : Vec3) : ℝ := Real.sqrt v.lengthSquared

/-- Babylon Vector3.normalize: divide by the length unless it is zero
(normalizeFromLength returns the vector unchanged for length 0; the
length 1 early-out coincides with scaling by 1). -/
noncomputable def normalize (v : Vec3) : Vec3 :=
  if v.length = 0 then v else v.scale (1 / v.length)

/-- Babylon Vector3.Lerp: start plus amount times the difference. -/
def lerp (a b : Vec3) (t : ℝ) : Vec3 := a.add ((b.sub a).scale t)

end Vec3

/-- Vector3.Up(). -/
def worldUp : Vec3 := ⟨0, 1, 0⟩

/-- Vector3.Down(). -/
def worldDown : Vec3 := ⟨0, -1, 0⟩

open Vec3

lemma lengthSquared_nonneg (v : Vec3) : 0 ≤ v.lengthSquared := by
  unfold Vec3.lengthSquared; nlinarith [sq_nonneg v.x, sq_nonneg v.y, sq_nonneg v.z]

lemma length_nonneg (v : Vec3) : 0 ≤ v.length := Real.sqrt_nonneg _

lemma lengthSquared_eq_zero_iff (v : Vec3) : v.lengthSquared = 0 ↔ v = Vec3.zero := by
  unfold Vec3.lengthSquared
  constructor
  · intro h
    have hx : v.x = 0 := by nlinarith [sq_nonneg v.y, sq_nonneg v.z]
    have hy : v.y = 0 := by nlinarith [sq_nonneg v.x, sq_nonneg v.z]
    have hz : v.z = 0 := by nlinarith [sq_nonneg v.x, sq_nonneg v.y]
    ext <;> simp [hx, hy, hz, Vec3.zero]
  · intro h; subst h; simp [Vec3.zero]

lemma length_eq_zero_iff (v : Vec3) : v.length = 0 ↔ v = Vec3.zero := by
  unfold Vec3.length
  rw [Real.sqrt_eq_zero (lengthSquared_nonneg v)]
  exact lengthSquared_eq_zero_iff v

lemma length_pos_of_ne_zero {v : Vec3} (h : v ≠ Vec3.zero) : 0 < v.length :=
  lt_of_le_of_ne (length_nonneg v) fun h0 => h ((length_eq_zero_iff v).mp h0.symm)

lemma lengthSquared_scale (v : Vec3) (c : ℝ) :
    (v.scale c).lengthSquared = c ^ 2 * v.lengthSquared := by
  unfold Vec3.lengthSquared Vec3.scale; ring

lemma length_scale (v : Vec3) (c : ℝ) : (v.scale c).length = |c| * v.length := by
  unfold Vec3.length
  rw [lengthSquared_scale, Real.sqrt_mul (sq_nonneg c), Real.sqrt_sq_eq_abs]

lemma length_normalize {v : Vec3} (h : v ≠ Vec3.zero) : v.normalize.length = 1 := by
  have hpos := length_pos_of_ne_zero h
  unfold Vec3.normalize
  rw [if_neg (ne_of_gt hpos), length_scale, abs_of_pos (by positivity)]
  field_simp

lemma lengthSquared_eq_sq_length (v : Vec3) : v.lengthSquared = v.length ^ 2 :=
  (Real.sq_sqrt (lengthSquared_nonneg v)).symm

/-! Controller data model (src/unnamed/part_000 lines 4 to 50). -/

/-- Result of a capsule sweep query. -/
structure SweepResult where
  hit : Bool
  distance : ℝ
  normal : Vec3
  point : Vec3

/-- Grounding report value type. -/
structure GroundingReport where
  isStableOnGround : Bool
  foundAnyGround : Bool
  groundNormal : Vec3

/-- The external shape sweep service (the sweep wrapper around the Havok
shape cast): fromPosition, direction, distance to a SweepResult. -/
def Oracle : Type := Vec3 → Vec3 → ℝ → SweepResult

/-- Mutable controller state: the fields of CharacterController that the
simulation reads and writes (capsule dimensions, positions, grounding
reports, the in-step ground flag and the fixed timestep accumulator). -/
structure CharacterState where
  capsuleRadius : ℝ
  capsuleHeight : ℝ
  transientPosition : Vec3
  previousPosition : Vec3
  groundingStatus : GroundingReport
  lastGroundingStatus : GroundingReport
  lastMovementIterationFoundAnyGround : Bool
  timeLeftOver : ℝ

/-- Movement setting maxIterations (line 26). -/
def maxIterations : ℕ := 5

/-- Movement setting collisionOffset (line 27). -/
noncomputable def collisionOffset : ℝ := 0.01

/-- Movement setting maxStableSlopeAngle in degrees (line 28). -/
noncomputable def maxStableSlopeAngle : ℝ := 60

/-- Ground detection setting minimumGroundProbingDistance (line 31). -/
noncomputable def minimumGroundProbingDistance : ℝ := 0.005

/-- Ground detection setting groundProbingBackstepDistance (line 32). -/
noncomputable def groundProbingBackstepDistance : ℝ := 0.1

/-- Fixed timestep (line 45). -/
noncomputable def fixedTimeStep : ℝ := 1 / 60

/-- isStableOnNormal (lines 146 to 151): a surface normal is stable when the
angle between world up and the normal, computed by acos of the dot product
and converted to degrees, is at most maxStableSlopeAngle. -/
noncomputable def isStableOnNormal (normal : Vec3) : Prop :=
  Real.arccos (dot worldUp normal) * (180 / Real.pi) ≤ maxStableSlopeAngle

/-- getDirectionTangentToSurface (lines 155 to 167). -/
noncomputable def getDirectionTangentToSurface (direction surfaceNormal : Vec3) : Vec3 :=
  let directionRight := cross direction worldUp
  if directionRight.lengthSquared < 0.0001 then
    ((direction.sub (surfaceNormal.scale (dot direction surfaceNormal))).normalize)
  else
    (cross surfaceNormal directionRight).normalize

open Classical in
/-- The obstruction normal built in the grounded and unstable branch of
handleVelocityProjection (lines 232 to 233): normalize the cross product of
the ground normal and the hit normal, then normalize its cross product with
world up. -/
noncomputable def obstructionNormalOf (groundNormal hitNormal : Vec3) : Vec3 :=
  ((cross groundNormal hitNormal).normalize.cross worldUp).normalize

open Classical in
/-- handleVelocityProjection (lines 215 to 261): the four case velocity
projection policy, reading the grounding status of the current step. -/
noncomputable def handleVelocityProjection (gs : GroundingReport) (velocity hitNormal : Vec3) :
    Vec3 :=
  if gs.isStableOnGround then
    if isStableOnNormal hitNormal then
      -- Case 1: grounded and stable hit (slope walking)
      (getDirectionTangentToSurface velocity hitNormal).scale velocity.length
    else
      -- Case 2: grounded and unstable hit (wall while grounded)
      let obstructionNormal := obstructionNormalOf gs.groundNormal hitNormal
      let obstructionRight := (cross obstructionNormal gs.groundNormal).normalize
      let obstructionUp := (cross obstructionRight obstructionNormal).normalize
      let projectedVelocity :=
        (getDirectionTangentToSurface velocity obstructionUp).scale velocity.length
      projectedVelocity.sub (obstructionNormal.scale (dot projectedVelocity obstructionNormal))
  else
    if isStableOnNormal hitNormal then
      -- Case 3: airborne and stable hit (landing)
      let horizontalVelocity := velocity.sub (worldUp.scale (dot velocity worldUp))
      (getDirectionTangentToSurface horizontalVelocity hitNormal).scale horizontalVelocity.length
    else
      -- Case 4: airborne and unstable hit (wall in air)
      velocity.sub (hitNormal.scale (dot velocity hitNormal))

/-- Probe distance choice of probeGround (lines 173 to 178). -/
noncomputable def probingDistanceOf (s : CharacterState) : ℝ :=
  if s.lastGroundingStatus.isStableOnGround || s.lastMovementIterationFoundAnyGround then
    max s.capsuleRadius minimumGroundProbingDistance
  else
    minimumGroundProbingDistance

/-- Probe start position of probeGround (line 181). -/
noncomputable def probeStart (s : CharacterState) : Vec3 :=
  s.transientPosition.add (worldUp.scale groundProbingBackstepDistance)

/-- Total probe sweep distance of probeGround (line 182). -/
noncomputable def probeTotalDistance (s : CharacterState) : ℝ :=
  probingDistanceOf s + groundProbingBackstepDistance

open Classical in
/-- probeGround (lines 171 to 205): sweep downward from slightly above the
current position; on a hit record the ground, and when the hit is stable
snap the vertical position down by the gap minus the collision offset. -/
noncomputable def probeGround (oracle : Oracle) (s : CharacterState) : CharacterState :=
  let hit := oracle (probeStart s) worldDown (probeTotalDistance s)
  if hit.hit then
    let actualDistance := hit.distance - groundProbingBackstepDistance
    let gs1 : GroundingReport :=
      { s.groundingStatus with foundAnyGround := true, groundNormal := hit.normal }
    if isStableOnNormal hit.normal then
      let gs2 : GroundingReport := { gs1 with isStableOnGround := true }
      if 0 < actualDistance then
        { s with groundingStatus := gs2,
                 transientPosition :=
                   s.transientPosition.sub (worldUp.scale (actualDistance - collisionOffset)) }
      else
        { s with groundingStatus := gs2 }
    else
      { s with groundingStatus := gs1 }
  else
    s

/-- Iteration state of the collide and slide loop inside simulate. -/
structure SlideState where
  remainingDistance : ℝ
  remainingDirection : Vec3
  currentPosition : Vec3
  foundGround : Bool

open Classical in
/-- The collide and slide loop of simulate (lines 315 to 342), one recursive
step per for iteration; the miss branch and the distance check return
without recursing, modelling break. -/
noncomputable def slideLoop (oracle : Oracle) (gs : GroundingReport) (deltaTime : ℝ) :
    ℕ → SlideState → SlideState
  | 0, st => st
  | Nat.succ k, st =>
    if st.remainingDistance ≤ 0 then st
    else
      let hit := oracle st.currentPosition st.remainingDirection st.remainingDistance
      if hit.hit then
        let moveDistance := max 0 (hit.distance - collisionOffset)
        let newPosition := st.currentPosition.add (st.remainingDirection.scale moveDistance)
        let newRemaining := st.remainingDistance - hit.distance
        let newFound := st.foundGround || decide (isStableOnNormal hit.normal)
        let velocityBeforeProjection := st.remainingDirection.scale (newRemaining / deltaTime)
        let projectedVelocity := handleVelocityProjection gs velocityBeforeProjection hit.normal
        let nextRemaining := projectedVelocity.length * deltaTime
        let nextDirection :=
          if 0 < projectedVelocity.lengthSquared then projectedVelocity.normalize
          else st.remainingDirection
        slideLoop oracle gs deltaTime k
          ⟨nextRemaining, nextDirection, newPosition, newFound⟩
      else
        let finalPosition := st.currentPosition.add
          (st.remainingDirection.scale st.remainingDistance)
        { st with currentPosition := finalPosition }

open Classical in
/-- simulate (lines 296 to 352): landing pre-adjustment of velocity, the
collide and slide loop, and the post-loop re-probe. -/
noncomputable def simulate (oracle : Oracle) (velocity : Vec3) (deltaTime : ℝ)
    (s : CharacterState) : CharacterState :=
  let adjustedVelocity :=
    if !s.lastGroundingStatus.isStableOnGround && s.groundingStatus.isStableOnGround then
      let horizontalVelocity := velocity.sub (worldUp.scale (dot velocity worldUp))
      (getDirectionTangentToSurface horizontalVelocity s.groundingStatus.groundNormal).scale
        horizontalVelocity.length
    else velocity
  if adjustedVelocity.length = 0 then s
  else
    let st0 : SlideState :=
      ⟨adjustedVelocity.length * deltaTime, adjustedVelocity.normalize,
        s.transientPosition, s.lastMovementIterationFoundAnyGround⟩
    let st := slideLoop oracle s.groundingStatus deltaTime maxIterations st0
    let s1 := { s with transientPosition := st.currentPosition,
                       lastMovementIterationFoundAnyGround := st.foundGround }
    if s1.lastMovementIterationFoundAnyGround && !s1.groundingStatus.isStableOnGround then
      probeGround oracle s1
    else s1

/-- preSimulate (lines 285 to 294): roll the grounding report over, reset
the current report and the in-step flag, then probe the ground. -/
noncomputable def preSimulate (oracle : Oracle) (s : CharacterState) : CharacterState :=
  probeGround oracle
    { s with lastGroundingStatus := s.groundingStatus,
             groundingStatus := ⟨false, false, worldUp⟩,
             lastMovementIterationFoundAnyGround := false }

/-- One pass of the while loop body of update (lines 268 to 273): snapshot
previousPosition, preSimulate, simulate with the fixed timestep, and subtract
the fixed timestep from the accumulator. -/
noncomputable def fixedStepOnce (oracle : Oracle) (velocity : Vec3) (s : CharacterState) :
    CharacterState :=
  let s1 := { s with previousPosition := s.transientPosition }
  let s2 := preSimulate oracle s1
  let s3 := simulate oracle velocity fixedTimeStep s2
  { s3 with timeLeftOver := s3.timeLeftOver - fixedTimeStep }

/-- Iterated fixed steps. -/
noncomputable def runFixedSteps (oracle : Oracle) (velocity : Vec3) :
    ℕ → CharacterState → CharacterState
  | 0, s => s
  | Nat.succ k, s => runFixedSteps oracle velocity k (fixedStepOnce oracle velocity s)

/-- update (lines 264 to 283): clamp deltaTime to 0.1, accumulate it, run
the while loop, and output the interpolated mesh position. Because every
pass of the loop body subtracts exactly fixedTimeStep from the accumulator
and nothing else writes it, the while loop runs exactly the floor of
accumulator over fixedTimeStep passes. -/
noncomputable def update (oracle : Oracle) (velocity : Vec3) (deltaTime : ℝ)
    (s : CharacterState) : CharacterState × Vec3 :=
  let dt := min deltaTime 0.1
  let acc := s.timeLeftOver + dt
  let s1 := { s with timeLeftOver := acc }
  let n := ⌊acc / fixedTimeStep⌋₊
  let s2 := runFixedSteps oracle velocity n s1
  let alpha := s2.timeLeftOver / fixedTimeStep
  (s2, lerp s2.previousPosition s2.transientPosition alpha)

/-- Trajectory of transientPosition values over a sequence of update calls. -/
noncomputable def runTrajectory (oracle : Oracle) :
    List (Vec3 × ℝ) → CharacterState → List Vec3
  | [], _ => []
  | (v, dt) :: rest, s =>
    let s1 := (update oracle v dt s).1
    s1.transientPosition :: runTrajectory oracle rest s1

/-- Modelled from the spec: the public operation isGrounded of
CharacterController is absent from the sources (only its caller
KinematicsPlayer.move, src/unnamed/part_000 line 549, survives); per the
spec it reads the current Grounding Report stability flag. -/
def isGrounded (s : CharacterState) : Bool :=
  s.groundingStatus.isStableOnGround

/-! Helper lemmas. -/

lemma dot_worldUp (v : Vec3) : dot worldUp v = v.y := by
  simp [Vec3.dot, worldUp]

lemma length_worldUp : worldUp.length = 1 := by
  unfold Vec3.length Vec3.lengthSquared worldUp
  norm_num

lemma stable_worldUp : isStableOnNormal worldUp := by
  unfold isStableOnNormal maxStableSlopeAngle
  rw [dot_worldUp]
  norm_num [worldUp, Real.arccos_one]

lemma length_negX : Vec3.length ⟨-1, 0, 0⟩ = 1 := by
  unfold Vec3.length Vec3.lengthSquared
  norm_num

lemma unstable_negX : ¬ isStableOnNormal ⟨-1, 0, 0⟩ := by
  unfold isStableOnNormal maxStableSlopeAngle
  rw [dot_worldUp]
  have h0 : Real.arccos 0 = Real.pi / 2 := Real.arccos_zero
  simp only [h0]
  have hpi : Real.pi ≠ 0 := Real.pi_ne_zero
  have : Real.pi / 2 * (180 / Real.pi) = 90 := by field_simp; ring
  rw [this]
  norm_num

/-- A stable unit normal has vertical component at least one half. -/
lemma stable_y_half {n : Vec3} (hn : n.lengthSquared = 1) (hs : isStableOnNormal n) :
    (1 : ℝ) / 2 ≤ n.y := by
  unfold isStableOnNormal maxStableSlopeAngle at hs
  rw [dot_worldUp] at hs
  have hpi := Real.pi_pos
  have h1 : Real.arccos n.y ≤ Real.pi / 3 := by
    rw [← mul_div_assoc, div_le_iff₀ hpi] at hs
    linarith
  have hy2 : n.y ^ 2 ≤ 1 := by
    unfold Vec3.lengthSquared at hn
    nlinarith [sq_nonneg n.x, sq_nonneg n.z]
  have hyl : -1 ≤ n.y := by nlinarith
  have hyu : n.y ≤ 1 := by nlinarith
  have h4 : Real.cos (Real.pi / 3) ≤ Real.cos (Real.arccos n.y) :=
    Real.cos_le_cos_of_nonneg_of_le_pi (Real.arccos_nonneg _) (by linarith) h1
  rw [Real.cos_arccos hyl hyu, Real.cos_pi_div_three] at h4
  exact h4

/-- Lagrange identity for the cross product. -/
lemma cross_lengthSquared (a b : Vec3) :
    (cross a b).lengthSquared = a.lengthSquared * b.lengthSquared - (dot a b) ^ 2 := by
  unfold Vec3.lengthSquared Vec3.cross Vec3.dot; ring

lemma cross_worldUp_y (a : Vec3) : (cross a worldUp).y = 0 := by
  simp [Vec3.cross, worldUp]

/-- The cross product of a stable unit normal with a non-degenerate
horizontal vector does not vanish. -/
lemma cross_stable_horizontal_ne_zero {n r : Vec3} (hn : n.lengthSquared = 1)
    (hy : (1 : ℝ) / 2 ≤ n.y) (hry : r.y = 0) (hr : r.lengthSquared ≠ 0) :
    cross n r ≠ Vec3.zero := by
  intro hzero
  have h0 : (cross n r).lengthSquared = 0 := by
    rw [hzero]; simp [Vec3.lengthSquared, Vec3.zero]
  rw [cross_lengthSquared, hn, one_mul] at h0
  have hrpos : 0 < r.lengthSquared :=
    lt_of_le_of_ne (lengthSquared_nonneg r) (Ne.symm hr)
  obtain ⟨nx, ny, nz⟩ := n
  obtain ⟨rx, ry, rz⟩ := r
  simp only at hry hy
  subst hry
  simp only [Vec3.lengthSquared, Vec3.dot] at h0 hn hrpos
  have hR : 0 < rx * rx + rz * rz := by linarith
  have hd : rx * rx + rz * rz = (nx * rx + nz * rz) ^ 2 := by nlinarith [h0]
  have hxz : nx * nx + nz * nz ≤ 3 / 4 := by nlinarith
  have hC : (nx * rx + nz * rz) ^ 2 ≤ (nx * nx + nz * nz) * (rx * rx + rz * rz) := by
    nlinarith [sq_nonneg (nx * rz - nz * rx)]
  have hmul : (nx * nx + nz * nz) * (rx * rx + rz * rz) ≤ 3 / 4 * (rx * rx + rz * rz) :=
    mul_le_mul_of_nonneg_right hxz (le_of_lt hR)
  linarith

lemma dot_scale_right (a b : Vec3) (c : ℝ) : dot a (b.scale c) = c * dot a b := by
  unfold Vec3.dot Vec3.scale; ring

lemma dot_scale_left (a b : Vec3) (c : ℝ) : dot (a.scale c) b = c * dot a b := by
  unfold Vec3.dot Vec3.scale; ring

lemma dot_cross_left (a b : Vec3) : dot (cross a b) a = 0 := by
  unfold Vec3.dot Vec3.cross; ring

lemma dot_cross_right (a b : Vec3) : dot (cross a b) b = 0 := by
  unfold Vec3.dot Vec3.cross; ring

lemma dot_zero_right (a : Vec3) : dot a Vec3.zero = 0 := by
  unfold Vec3.dot Vec3.zero; ring

lemma dot_zero_left (a : Vec3) : dot Vec3.zero a = 0 := by
  unfold Vec3.dot Vec3.zero; ring

lemma normalize_dot_zero {w : Vec3} (t : Vec3) (h : dot w t = 0) :
    dot w.normalize t = 0 := by
  unfold Vec3.normalize
  split
  · exact h
  · rw [dot_scale_left, h, mul_zero]

lemma normalize_y_zero {w : Vec3} (h : w.y = 0) : w.normalize.y = 0 := by
  unfold Vec3.normalize
  split
  · exact h
  · simp [Vec3.scale, h]

lemma scale_y (v : Vec3) (c : ℝ) : (v.scale c).y = v.y * c := rfl

lemma cross_self (a : Vec3) : cross a a = Vec3.zero := by
  ext <;> (simp [Vec3.cross, Vec3.zero]; ring)

lemma length_zero_vec : Vec3.length Vec3.zero = 0 :=
  (length_eq_zero_iff _).mpr rfl

lemma normalize_zero_vec : Vec3.normalize Vec3.zero = Vec3.zero := by
  unfold Vec3.normalize
  rw [if_pos length_zero_vec]

lemma zero_scale (c : ℝ) : Vec3.scale Vec3.zero c = Vec3.zero := by
  ext <;> simp [Vec3.scale, Vec3.zero]

/-- The tangent direction is a unit vector whenever its construction is not
degenerate: the normal is stable and unit, and either the horizontal
heading cross product is above the 0.0001 threshold or the direction is not
parallel to the normal. -/
lemma tangent_length_one {v n : Vec3} (hn : n.lengthSquared = 1) (hy : (1 : ℝ) / 2 ≤ n.y)
    (hnd : (1 : ℝ) / 10000 ≤ (cross v worldUp).lengthSquared ∨
      v.sub (n.scale (dot v n)) ≠ Vec3.zero) :
    (getDirectionTangentToSurface v n).length = 1 := by
  unfold getDirectionTangentToSurface
  by_cases hc : (cross v worldUp).lengthSquared < 0.0001
  · rw [if_pos hc]
    have hw : v.sub (n.scale (dot v n)) ≠ Vec3.zero := by
      rcases hnd with h1 | h2
      · exfalso
        have : (0.0001 : ℝ) = 1 / 10000 := by norm_num
        rw [this] at hc
        linarith
      · exact h2
    exact length_normalize hw
  · rw [if_neg hc]
    push_neg at hc
    have hr : (cross v worldUp).lengthSquared ≠ 0 := by
      intro h; rw [h] at hc; norm_num at hc
    exact length_normalize
      (cross_stable_horizontal_ne_zero hn hy (cross_worldUp_y v) hr)

/-! Claim theorems. -/

/-- C1 (amended): in the grounded plus stable hit case, for non-zero
velocity v and stable unit normal n, handleVelocityProjection returns a
vector of magnitude exactly the magnitude of v, provided the tangent
construction is not degenerate: either the cross product of v with world up
has squared length at least 0.0001, or v is not parallel to n. -/
theorem groundedStable_speed_preserved (gs : GroundingReport) (v n : Vec3)
    (hg : gs.isStableOnGround = true) (hstable : isStableOnNormal n)
    (hn : n.length = 1) ( _hv : v ≠ Vec3.zero)
    (hnd : (1 : ℝ) / 10000 ≤ (cross v worldUp).lengthSquared ∨
      v.sub (n.scale (dot v n)) ≠ Vec3.zero) :
    (handleVelocityProjection gs v n).length = v.length := by
  have hn2 : n.lengthSquared = 1 := by
    rw [lengthSquared_eq_sq_length, hn]; norm_num
  have hy := stable_y_half hn2 hstable
  unfold handleVelocityProjection
  rw [hg]
  rw [if_pos rfl, if_pos hstable]
  rw [length_scale, abs_of_nonneg (length_nonneg v), tangent_length_one hn2 hy hnd, mul_one]

/-- C1 counterexample: with the controller stably grounded on a flat floor,
velocity straight up (a non-zero vector) and the stable unit normal equal to
world up, handleVelocityProjection returns the zero vector, whose magnitude
0 differs from the full speed 1. -/
theorem groundedStable_speed_counterexample :
    worldUp ≠ Vec3.zero ∧ worldUp.length = 1 ∧ isStableOnNormal worldUp ∧
    (GroundingReport.mk true true worldUp).isStableOnGround = true ∧
    (handleVelocityProjection ⟨true, true, worldUp⟩ worldUp worldUp).length ≠
      worldUp.length := by
  have hupne : worldUp ≠ Vec3.zero := by
    intro h
    have := congrArg Vec3.y h
    simp [worldUp, Vec3.zero] at this
  refine ⟨hupne, length_worldUp, stable_worldUp, rfl, ?_⟩
  have hcross : cross worldUp worldUp = Vec3.zero := cross_self worldUp
  have hcls : (cross worldUp worldUp).lengthSquared < 0.0001 := by
    rw [hcross]
    norm_num [Vec3.lengthSquared, Vec3.zero]
  have hw : Vec3.sub worldUp (worldUp.scale (dot worldUp worldUp)) = Vec3.zero := by
    ext <;> norm_num [Vec3.sub, Vec3.scale, Vec3.dot, worldUp, Vec3.zero]
  have htan : getDirectionTangentToSurface worldUp worldUp = Vec3.zero := by
    unfold getDirectionTangentToSurface
    rw [if_pos hcls, hw, normalize_zero_vec]
  unfold handleVelocityProjection
  rw [if_pos rfl, if_pos stable_worldUp, htan, zero_scale, length_zero_vec, length_worldUp]
  norm_num

/-- C1 witness: the amended theorem applied to a horizontal unit velocity on
a flat stable floor while grounded. -/
theorem groundedStable_speed_witness :
    (handleVelocityProjection ⟨true, true, worldUp⟩ ⟨1, 0, 0⟩ worldUp).length =
      Vec3.length ⟨1, 0, 0⟩ :=
  groundedStable_speed_preserved ⟨true, true, worldUp⟩ ⟨1, 0, 0⟩ worldUp rfl
    stable_worldUp length_worldUp
    (by intro h; have := congrArg Vec3.x h; simp [Vec3.zero] at this)
    (Or.inl (by norm_num [Vec3.cross, worldUp, Vec3.lengthSquared]))

/-- Constant test oracle reporting a stable floor hit at sweep distance
3/10, used to exercise the ground prober on concrete inputs. -/
noncomputable def hitOracle : Oracle := fun _ _ _ => ⟨true, 3 / 10, worldUp, Vec3.zero⟩

/-- Constant test oracle reporting no hit. -/
def missOracle : Oracle := fun _ _ _ => ⟨false, 0, worldUp, Vec3.zero⟩

/-- A concrete controller state (capsule radius 2/5, height 3/2, resting
data at height 5, fresh reports, zero accumulator). -/
noncomputable def st0 : CharacterState :=
  ⟨2 / 5, 3 / 2, ⟨0, 5, 0⟩, ⟨0, 5, 0⟩, ⟨false, false, worldUp⟩, ⟨false, false, worldUp⟩,
    false, 0⟩

/-- C2 (amended): when the downward probe hits a stable surface with
positive gap (hit distance minus the backstep), probeGround subtracts
exactly the gap minus collisionOffset from the vertical position; when the
gap is zero or negative the position is unchanged. -/
theorem probeGround_snap (oracle : Oracle) (s : CharacterState) :
    ((oracle (probeStart s) worldDown (probeTotalDistance s)).hit = true →
      isStableOnNormal (oracle (probeStart s) worldDown (probeTotalDistance s)).normal →
      0 < (oracle (probeStart s) worldDown (probeTotalDistance s)).distance -
        groundProbingBackstepDistance →
      (probeGround oracle s).transientPosition.y =
        s.transientPosition.y -
          (((oracle (probeStart s) worldDown (probeTotalDistance s)).distance -
            groundProbingBackstepDistance) - collisionOffset)) ∧
    ((oracle (probeStart s) worldDown (probeTotalDistance s)).hit = true →
      isStableOnNormal (oracle (probeStart s) worldDown (probeTotalDistance s)).normal →
      (oracle (probeStart s) worldDown (probeTotalDistance s)).distance -
        groundProbingBackstepDistance ≤ 0 →
      (probeGround oracle s).transientPosition = s.transientPosition) := by
  constructor
  · intro hhit hstable hgap
    simp only [probeGround]
    rw [if_pos hhit, if_pos hstable, if_pos hgap]
    simp [Vec3.sub, Vec3.scale, worldUp]
  · intro hhit hstable hgap
    simp only [probeGround]
    rw [if_pos hhit, if_pos hstable, if_neg (not_lt.mpr hgap)]

/-- C2 counterexample: with a stable hit at sweep distance 3/10 the gap is
1/5, but probeGround moves the vertical position by 1/5 minus the collision
offset, not by the gap itself. -/
theorem probeGround_snap_counterexample :
    (hitOracle (probeStart st0) worldDown (probeTotalDistance st0)).hit = true ∧
    isStableOnNormal (hitOracle (probeStart st0) worldDown (probeTotalDistance st0)).normal ∧
    (hitOracle (probeStart st0) worldDown (probeTotalDistance st0)).distance -
      groundProbingBackstepDistance = 1 / 5 ∧
    (probeGround hitOracle st0).transientPosition.y ≠ st0.transientPosition.y - 1 / 5 := by
  refine ⟨rfl, stable_worldUp, by norm_num [hitOracle, groundProbingBackstepDistance], ?_⟩
  have h := (probeGround_snap hitOracle st0).1 rfl stable_worldUp
    (by norm_num [hitOracle, groundProbingBackstepDistance])
  rw [h]
  norm_num [hitOracle, groundProbingBackstepDistance, collisionOffset, st0]

/-- C2 witness: the amended theorem applied to the concrete stable hit. -/
theorem probeGround_snap_witness :
    (probeGround hitOracle st0).transientPosition.y =
      st0.transientPosition.y -
        (((hitOracle (probeStart st0) worldDown (probeTotalDistance st0)).distance -
          groundProbingBackstepDistance) - collisionOffset) :=
  (probeGround_snap hitOracle st0).1 rfl stable_worldUp
    (by norm_num [hitOracle, groundProbingBackstepDistance])

/-- C9: probeGround never changes the horizontal coordinates of
transientPosition, and leaves the position entirely unchanged unless the
downward sweep hit a stable normal with positive gap. -/
theorem probeGround_frame (oracle : Oracle) (s : CharacterState) :
    (probeGround oracle s).transientPosition.x = s.transientPosition.x ∧
    (probeGround oracle s).transientPosition.z = s.transientPosition.z ∧
    (¬ ((oracle (probeStart s) worldDown (probeTotalDistance s)).hit = true ∧
        isStableOnNormal (oracle (probeStart s) worldDown (probeTotalDistance s)).normal ∧
        0 < (oracle (probeStart s) worldDown (probeTotalDistance s)).distance -
          groundProbingBackstepDistance) →
      (probeGround oracle s).transientPosition = s.transientPosition) := by
  refine ⟨?_, ?_, ?_⟩
  · simp only [probeGround]
    split_ifs with h1 h2 h3 <;> simp [Vec3.sub, Vec3.scale, worldUp]
  · simp only [probeGround]
    split_ifs with h1 h2 h3 <;> simp [Vec3.sub, Vec3.scale, worldUp]
  · intro hnc
    simp only [probeGround]
    split_ifs with h1 h2 h3
    · exact absurd ⟨h1, h2, h3⟩ hnc
    · rfl
    · rfl
    · rfl

/-- C9 witness: with the miss oracle the probe leaves the concrete state in
place. -/
theorem probeGround_frame_witness :
    (probeGround missOracle st0).transientPosition = st0.transientPosition :=
  (probeGround_frame missOracle st0).2.2
    (by intro h; simpa [missOracle] using h.1)

lemma dot_self_eq (a : Vec3) : dot a a = a.lengthSquared := by
  unfold Vec3.dot Vec3.lengthSquared; ring

lemma normalize_unit {v : Vec3} (h : v.length = 1) : v.normalize = v := by
  unfold Vec3.normalize
  rw [if_neg (by rw [h]; exact one_ne_zero), h]
  ext <;> simp [Vec3.scale]

lemma normalize_cases (u : Vec3) :
    (Vec3.normalize u).lengthSquared = 1 ∨ Vec3.normalize u = Vec3.zero := by
  by_cases hu : u = Vec3.zero
  · right; rw [hu, normalize_zero_vec]
  · left
    rw [lengthSquared_eq_sq_length, length_normalize hu]
    norm_num

lemma dot_sub_proj_self (p o : Vec3)
    (h : o.lengthSquared = 1 ∨ o = Vec3.zero) :
    dot (p.sub (o.scale (dot p o))) o = 0 := by
  have hexp : dot (p.sub (o.scale (dot p o))) o = dot p o - dot p o * o.lengthSquared := by
    unfold Vec3.dot Vec3.sub Vec3.scale Vec3.lengthSquared; ring
  rcases h with h1 | h1
  · rw [hexp, h1]; ring
  · subst h1
    rw [hexp]
    simp [Vec3.lengthSquared, Vec3.zero, Vec3.dot]

/-- C3 (amended): in the grounded plus unstable hit case the constructed
obstruction normal is perpendicular to world up and to the cross product of
the ground normal with the wall normal (it is the horizontalized wall
axis, not in general perpendicular to the wall normal itself), and the
returned velocity has zero remaining component along that obstruction
normal. -/
theorem groundedUnstable_obstruction (gs : GroundingReport) (v n : Vec3)
    (hg : gs.isStableOnGround = true) (hunstable : ¬ isStableOnNormal n) :
    dot (obstructionNormalOf gs.groundNormal n) worldUp = 0 ∧
    dot (obstructionNormalOf gs.groundNormal n) (cross gs.groundNormal n) = 0 ∧
    dot (handleVelocityProjection gs v n) (obstructionNormalOf gs.groundNormal n) = 0 := by
  set g := gs.groundNormal with hgdef
  set m := cross g n with hmdef
  refine ⟨?_, ?_, ?_⟩
  · unfold obstructionNormalOf
    exact normalize_dot_zero worldUp (dot_cross_right m.normalize worldUp)
  · unfold obstructionNormalOf
    have hl : dot (Vec3.normalize (cross m.normalize worldUp)) m.normalize = 0 :=
      normalize_dot_zero m.normalize (dot_cross_left m.normalize worldUp)
    by_cases hm : m = Vec3.zero
    · rw [hm]
      exact dot_zero_right _
    · have hnm : m.normalize = m.scale (1 / m.length) := by
        unfold Vec3.normalize
        rw [if_neg (fun h0 => hm ((length_eq_zero_iff m).mp h0))]
      have hl2 : (1 / m.length) *
          dot (Vec3.normalize (cross m.normalize worldUp)) m = 0 := by
        rw [← dot_scale_right, ← hnm]; exact hl
      have hlen := length_pos_of_ne_zero hm
      have hc : (1 : ℝ) / m.length ≠ 0 := by positivity
      exact (mul_eq_zero.mp hl2).resolve_left hc
  · unfold handleVelocityProjection
    rw [hg, if_pos rfl, if_neg hunstable]
    exact dot_sub_proj_self _ _ (normalize_cases _)

/-- C3 counterexample: standing on flat ground against a vertical wall with
unit unstable normal pointing along negative x, the obstruction normal
equals that wall normal, so its dot product with the wall normal is 1, not
0: the obstruction normal is not perpendicular to the wall normal. -/
theorem groundedUnstable_obstruction_counterexample :
    Vec3.length ⟨-1, 0, 0⟩ = 1 ∧ ¬ isStableOnNormal ⟨-1, 0, 0⟩ ∧
    dot (obstructionNormalOf worldUp ⟨-1, 0, 0⟩) ⟨-1, 0, 0⟩ ≠ 0 := by
  refine ⟨length_negX, unstable_negX, ?_⟩
  have h1 : cross worldUp ⟨-1, 0, 0⟩ = ⟨0, 0, 1⟩ := by
    ext <;> norm_num [Vec3.cross, worldUp]
  have h2 : Vec3.normalize ⟨0, 0, 1⟩ = ⟨0, 0, 1⟩ :=
    normalize_unit (by norm_num [Vec3.length, Vec3.lengthSquared])
  have h3 : cross ⟨0, 0, 1⟩ worldUp = ⟨-1, 0, 0⟩ := by
    ext <;> norm_num [Vec3.cross, worldUp]
  have h4 : obstructionNormalOf worldUp ⟨-1, 0, 0⟩ = ⟨-1, 0, 0⟩ := by
    unfold obstructionNormalOf
    rw [h1, h2, h3, normalize_unit length_negX]
  rw [h4]
  norm_num [Vec3.dot]

/-- C3 witness: the amended theorem applied to flat ground and the vertical
wall with normal along negative x. -/
theorem groundedUnstable_obstruction_witness :
    dot (obstructionNormalOf (GroundingReport.mk true true worldUp).groundNormal ⟨-1, 0, 0⟩)
      worldUp = 0 ∧
    dot (obstructionNormalOf (GroundingReport.mk true true worldUp).groundNormal ⟨-1, 0, 0⟩)
      (cross (GroundingReport.mk true true worldUp).groundNormal ⟨-1, 0, 0⟩) = 0 ∧
    dot (handleVelocityProjection ⟨true, true, worldUp⟩ ⟨1, 0, 0⟩ ⟨-1, 0, 0⟩)
      (obstructionNormalOf (GroundingReport.mk true true worldUp).groundNormal ⟨-1, 0, 0⟩) = 0 :=
  groundedUnstable_obstruction ⟨true, true, worldUp⟩ ⟨1, 0, 0⟩ ⟨-1, 0, 0⟩ rfl unstable_negX

/-- A non-zero horizontal vector is not parallel to a normal whose vertical
component is at least one half, so removing its normal component leaves a
non-zero vector. -/
lemma sub_proj_ne_zero_of_horizontal {h n : Vec3} (hy : (1 : ℝ) / 2 ≤ n.y)
    (hhy : h.y = 0) (hh : h ≠ Vec3.zero) :
    h.sub (n.scale (dot h n)) ≠ Vec3.zero := by
  intro h0
  have e1 := congrArg Vec3.x h0
  have e2 := congrArg Vec3.y h0
  have e3 := congrArg Vec3.z h0
  simp [Vec3.sub, Vec3.scale, Vec3.zero] at e1 e2 e3
  rw [hhy] at e2
  have e2m : n.y * dot h n = 0 := by linarith
  have hd : dot h n = 0 := by
    rcases mul_eq_zero.mp e2m with hc | hc
    · linarith
    · exact hc
  rw [hd] at e1 e3
  simp at e1 e3
  exact hh (by ext <;> simp [Vec3.zero, e1, e3, hhy])

/-- The tangent direction against a flat floor normal is horizontal. -/
lemma tangent_worldUp_y_zero (d : Vec3) :
    (getDirectionTangentToSurface d worldUp).y = 0 := by
  unfold getDirectionTangentToSurface
  by_cases hc : (cross d worldUp).lengthSquared < 0.0001
  · rw [if_pos hc]
    apply normalize_y_zero
    simp [Vec3.sub, Vec3.scale, Vec3.dot, worldUp]
  · rw [if_neg hc]
    apply normalize_y_zero
    simp [Vec3.cross, worldUp]

/-- C4: in the airborne plus stable hit case, handleVelocityProjection
first removes the world up component of the velocity, tangent projects the
rest, and the returned magnitude equals the magnitude of the horizontal
part; against a flat stable floor the returned vector has zero vertical
component. -/
theorem airborneStable_landing (gs : GroundingReport) (v n : Vec3)
    (hg : gs.isStableOnGround = false) (hstable : isStableOnNormal n)
    (hn : n.length = 1) :
    (handleVelocityProjection gs v n).length =
      (v.sub (worldUp.scale (dot v worldUp))).length ∧
    (n = worldUp → (handleVelocityProjection gs v n).y = 0) := by
  have hn2 : n.lengthSquared = 1 := by
    rw [lengthSquared_eq_sq_length, hn]; norm_num
  have hy := stable_y_half hn2 hstable
  have hred : handleVelocityProjection gs v n =
      (getDirectionTangentToSurface (v.sub (worldUp.scale (dot v worldUp))) n).scale
        (v.sub (worldUp.scale (dot v worldUp))).length := by
    unfold handleVelocityProjection
    rw [hg, if_neg Bool.false_ne_true, if_pos hstable]
  have hhy : (v.sub (worldUp.scale (dot v worldUp))).y = 0 := by
    simp [Vec3.sub, Vec3.scale, Vec3.dot, worldUp]
  constructor
  · rw [hred]
    set h := v.sub (worldUp.scale (dot v worldUp)) with hdef
    rw [length_scale, abs_of_nonneg (length_nonneg h)]
    by_cases hh : h = Vec3.zero
    · rw [hh, length_zero_vec]; ring
    · rw [tangent_length_one hn2 hy ?_, mul_one]
      by_cases hc : (1 : ℝ) / 10000 ≤ (cross h worldUp).lengthSquared
      · exact Or.inl hc
      · exact Or.inr (sub_proj_ne_zero_of_horizontal hy hhy hh)
  · intro hnup
    subst hnup
    rw [hred, scale_y, tangent_worldUp_y_zero, zero_mul]

/-- C4 witness: the theorem applied to a diagonal downward velocity landing
on a flat stable floor while airborne. -/
theorem airborneStable_landing_witness :
    (handleVelocityProjection ⟨false, false, worldUp⟩ ⟨1, -1, 0⟩ worldUp).length =
      (Vec3.sub ⟨1, -1, 0⟩ (worldUp.scale (dot ⟨1, -1, 0⟩ worldUp))).length ∧
    (worldUp = worldUp →
      (handleVelocityProjection ⟨false, false, worldUp⟩ ⟨1, -1, 0⟩ worldUp).y = 0) :=
  airborneStable_landing ⟨false, false, worldUp⟩ ⟨1, -1, 0⟩ worldUp rfl
    stable_worldUp length_worldUp

/-- C10: in the airborne plus unstable hit case the planar deflection never
increases speed: the returned vector has magnitude at most the magnitude of
the incoming velocity, for any unit wall normal. -/
theorem airborneUnstable_no_speed_gain (gs : GroundingReport) (v n : Vec3)
    (hg : gs.isStableOnGround = false) (hunstable : ¬ isStableOnNormal n)
    (hn : n.length = 1) :
    (handleVelocityProjection gs v n).length ≤ v.length := by
  have hn2 : n.lengthSquared = 1 := by
    rw [lengthSquared_eq_sq_length, hn]; norm_num
  unfold handleVelocityProjection
  rw [hg, if_neg Bool.false_ne_true, if_neg hunstable]
  have hexp : (v.sub (n.scale (dot v n))).lengthSquared =
      v.lengthSquared - (dot v n) ^ 2 * (2 - n.lengthSquared) := by
    unfold Vec3.lengthSquared Vec3.sub Vec3.scale Vec3.dot; ring
  rw [hn2] at hexp
  unfold Vec3.length
  apply Real.sqrt_le_sqrt
  rw [hexp]
  nlinarith [sq_nonneg (dot v n)]

/-- C10 witness: the theorem applied to a horizontal velocity hitting the
vertical wall with normal along negative x while airborne. -/
theorem airborneUnstable_no_speed_gain_witness :
    (handleVelocityProjection ⟨false, false, worldUp⟩ ⟨1, 0, 0⟩ ⟨-1, 0, 0⟩).length ≤
      Vec3.length ⟨1, 0, 0⟩ :=
  airborneUnstable_no_speed_gain ⟨false, false, worldUp⟩ ⟨1, 0, 0⟩ ⟨-1, 0, 0⟩ rfl
    unstable_negX length_negX

lemma probeGround_timeLeftOver (oracle : Oracle) (s : CharacterState) :
    (probeGround oracle s).timeLeftOver = s.timeLeftOver := by
  simp only [probeGround]
  split_ifs <;> rfl

lemma simulate_timeLeftOver (oracle : Oracle) (v : Vec3) (dt : ℝ) (s : CharacterState) :
    (simulate oracle v dt s).timeLeftOver = s.timeLeftOver := by
  simp only [simulate]
  split_ifs <;> simp [probeGround_timeLeftOver]

lemma preSimulate_timeLeftOver (oracle : Oracle) (s : CharacterState) :
    (preSimulate oracle s).timeLeftOver = s.timeLeftOver := by
  simp only [preSimulate, probeGround_timeLeftOver]

lemma fixedStepOnce_timeLeftOver (oracle : Oracle) (v : Vec3) (s : CharacterState) :
    (fixedStepOnce oracle v s).timeLeftOver = s.timeLeftOver - fixedTimeStep := by
  simp only [fixedStepOnce, simulate_timeLeftOver, preSimulate_timeLeftOver]

lemma runFixedSteps_timeLeftOver (oracle : Oracle) (v : Vec3) (n : ℕ) (s : CharacterState) :
    (runFixedSteps oracle v n s).timeLeftOver = s.timeLeftOver - n * fixedTimeStep := by
  induction n generalizing s with
  | zero => simp [runFixedSteps]
  | succ k ih =>
    rw [runFixedSteps, ih, fixedStepOnce_timeLeftOver]
    push_cast
    ring

/-- C5: for non-negative deltaTime and a non-negative accumulator, after an
update call the accumulator lies in the interval from 0 inclusive to
fixedTimeStep exclusive; moreover update clamps deltaTime to 0.1, runs one
fixed step per whole fixedTimeStep accumulated and subtracts fixedTimeStep
per step, so the final accumulator is the clamped total minus that number of
steps times fixedTimeStep. -/
theorem update_accumulator_invariant (oracle : Oracle) (v : Vec3) (dt : ℝ)
    (s : CharacterState) (hdt : 0 ≤ dt) (hs : 0 ≤ s.timeLeftOver) :
    (0 ≤ ((update oracle v dt s).1).timeLeftOver ∧
      ((update oracle v dt s).1).timeLeftOver < fixedTimeStep) ∧
    ((update oracle v dt s).1).timeLeftOver =
      (s.timeLeftOver + min dt 0.1) -
        (⌊(s.timeLeftOver + min dt 0.1) / fixedTimeStep⌋₊ : ℝ) * fixedTimeStep := by
  have heq : ((update oracle v dt s).1).timeLeftOver =
      (s.timeLeftOver + min dt 0.1) -
        (⌊(s.timeLeftOver + min dt 0.1) / fixedTimeStep⌋₊ : ℝ) * fixedTimeStep := by
    simp only [update, runFixedSteps_timeLeftOver]
  set acc := s.timeLeftOver + min dt 0.1 with haccdef
  have hacc : 0 ≤ acc := add_nonneg hs (le_min hdt (by norm_num))
  have hstep : (0 : ℝ) < fixedTimeStep := by norm_num [fixedTimeStep]
  have hfl : (⌊acc / fixedTimeStep⌋₊ : ℝ) * fixedTimeStep ≤ acc := by
    have h1 : (⌊acc / fixedTimeStep⌋₊ : ℝ) ≤ acc / fixedTimeStep :=
      Nat.floor_le (div_nonneg hacc hstep.le)
    have h2 := mul_le_mul_of_nonneg_right h1 hstep.le
    rwa [div_mul_cancel₀ acc (ne_of_gt hstep)] at h2
  have hfu : acc < ((⌊acc / fixedTimeStep⌋₊ : ℝ) + 1) * fixedTimeStep := by
    have h1 : acc / fixedTimeStep < (⌊acc / fixedTimeStep⌋₊ : ℝ) + 1 :=
      Nat.lt_floor_add_one (acc / fixedTimeStep)
    have h2 := mul_lt_mul_of_pos_right h1 hstep
    rwa [div_mul_cancel₀ acc (ne_of_gt hstep)] at h2
  refine ⟨⟨?_, ?_⟩, heq⟩
  · rw [heq]; linarith
  · rw [heq]; nlinarith

/-- C5 witness: the invariant applied to the miss oracle, a unit velocity,
deltaTime 1/30 and the concrete state with zero accumulator. -/
theorem update_accumulator_invariant_witness :
    (0 ≤ ((update missOracle ⟨1, 0, 0⟩ (1 / 30) st0).1).timeLeftOver ∧
      ((update missOracle ⟨1, 0, 0⟩ (1 / 30) st0).1).timeLeftOver < fixedTimeStep) ∧
    ((update missOracle ⟨1, 0, 0⟩ (1 / 30) st0).1).timeLeftOver =
      (st0.timeLeftOver + min (1 / 30) 0.1) -
        (⌊(st0.timeLeftOver + min (1 / 30) 0.1) / fixedTimeStep⌋₊ : ℝ) * fixedTimeStep :=
  update_accumulator_invariant missOracle ⟨1, 0, 0⟩ (1 / 30) st0 (by norm_num)
    (by norm_num [st0])

/-- C6: the controller is deterministic: two runs from identical initial
states, over identical input sequences and the same static sweep oracle,
produce identical transientPosition trajectories; the embedding of update
reads nothing beyond the supplied state, velocity and deltaTime. -/
theorem trajectory_deterministic (o1 o2 : Oracle) (inputs1 inputs2 : List (Vec3 × ℝ))
    (s1 s2 : CharacterState) (ho : o1 = o2) (hi : inputs1 = inputs2) (hs : s1 = s2) :
    runTrajectory o1 inputs1 s1 = runTrajectory o2 inputs2 s2 := by
  subst ho; subst hi; subst hs; rfl

/-- C6 witness: two identical concrete runs. -/
theorem trajectory_deterministic_witness :
    runTrajectory missOracle [(⟨1, 0, 0⟩, 1 / 30)] st0 =
      runTrajectory missOracle [(⟨1, 0, 0⟩, 1 / 30)] st0 :=
  trajectory_deterministic missOracle missOracle [(⟨1, 0, 0⟩, 1 / 30)]
    [(⟨1, 0, 0⟩, 1 / 30)] st0 st0 rfl rfl rfl

/-- C7: for every unit normal the stability classifier holds exactly when
the arccosine of the dot product with world up, converted to degrees, is at
most the maximum stable slope angle of 60 degrees. -/
theorem stability_classifier_iff (n : Vec3) ( _hn : n.length = 1) :
    isStableOnNormal n ↔ Real.arccos (dot worldUp n) * (180 / Real.pi) ≤ 60 :=
  Iff.rfl

/-- C7 witness: the classifier equivalence at the flat floor normal. -/
theorem stability_classifier_iff_witness :
    isStableOnNormal worldUp ↔
      Real.arccos (dot worldUp worldUp) * (180 / Real.pi) ≤ 60 :=
  stability_classifier_iff worldUp length_worldUp

/-- C8: the public operation isGrounded returns the stability flag of the
current Grounding Report in every state. -/
theorem isGrounded_reads_stability (s : CharacterState) :
    isGrounded s = s.groundingStatus.isStableOnGround := rfl

end Paint
